import Mathlib

/-!
Verification of the scan-type classification engine
(`src/backend/scan_classifier.py`) against its specification.

The engine is embedded shallowly: image features are exact rationals
(the Python code computes the same quantities in IEEE doubles), pixel
data is a list of 8-bit intensities, and Python's `round` (round half
to even) is modelled exactly on `ℚ`.
-/

/-- The eight scan categories, in the order `SCAN_TYPES` declares them. -/
inductive ScanType : Type
  | xray
  | ctScan
  | mri
  | ultrasound
  | petScan
  | mammogram
  | dexaScan
  | fluoroscopy
deriving DecidableEq, Repr

/-- The `SCAN_TYPES` list: category declaration order, the order the
`scores` dict is built in (Python dicts iterate in insertion order). -/
def SCAN_TYPES : List ScanType :=
  [.xray, .ctScan, .mri, .ultrasound, .petScan, .mammogram, .dexaScan, .fluoroscopy]

/-- Position of a category in the fixed declaration order. -/
def declIdx : ScanType → ℕ
  | .xray => 0
  | .ctScan => 1
  | .mri => 2
  | .ultrasound => 3
  | .petScan => 4
  | .mammogram => 5
  | .dexaScan => 6
  | .fluoroscopy => 7

/-- Display name of each category (the dict keys of the source). -/
def scanName : ScanType → String
  | .xray => "X-Ray"
  | .ctScan => "CT Scan"
  | .mri => "MRI"
  | .ultrasound => "Ultrasound"
  | .petScan => "PET Scan"
  | .mammogram => "Mammogram"
  | .dexaScan => "DEXA Scan"
  | .fluoroscopy => "Fluoroscopy"

/-- The static `SCAN_DESCRIPTIONS` table, verbatim from the source. -/
def SCAN_DESCRIPTIONS : ScanType → String
  | .xray => "A radiographic image using X-ray radiation to view internal body structures, commonly used for bones, chest, and dental imaging."
  | .ctScan => "Computed Tomography scan providing cross-sectional images of the body using X-rays processed by computer."
  | .mri => "Magnetic Resonance Imaging using strong magnetic fields and radio waves to generate detailed images of organs and tissues."
  | .ultrasound => "Sonographic imaging using high-frequency sound waves to produce images of internal body structures."
  | .petScan => "Positron Emission Tomography scan showing metabolic activity, often used in oncology and neurology."
  | .mammogram => "Specialized low-dose X-ray imaging of breast tissue for screening and diagnosis."
  | .dexaScan => "Dual-Energy X-ray Absorptiometry scan measuring bone mineral density."
  | .fluoroscopy => "A real-time X-ray imaging technique used to observe moving body structures."

/-- The FeatureVector returned by `_compute_features` (the dict of
scalar statistics the classifier reads). -/
structure Features : Type where
  aspect_ratio : ℚ
  mean_intensity : ℚ
  std_intensity : ℚ
  median_intensity : ℚ
  entropy : ℚ
  laplacian_var : ℚ
  edge_density : ℚ
  dark_ratio : ℚ
  bright_ratio : ℚ
  contrast : ℚ
  width : ℕ
  height : ℕ
deriving DecidableEq, Repr

/-- The rule-based scoring of `classify_scan_type` (lines 105-165):
each category accumulates, from 0.0, the weights of the satisfied
threshold rules, all comparisons strict, no early exit. -/
def score (f : Features) : ScanType → ℚ
  | .xray =>
      (if f.dark_ratio > 3/10 ∧ f.contrast > 150 then 3 else 0)
    + (if f.mean_intensity < 100 ∧ f.std_intensity > 50 then 2 else 0)
    + (if f.edge_density > 5/100 ∧ f.edge_density < 25/100 then 3/2 else 0)
  | .ctScan =>
      (if 85/100 < f.aspect_ratio ∧ f.aspect_ratio < 115/100 then 2 else 0)
    + (if (60 < f.mean_intensity ∧ f.mean_intensity < 160) ∧ f.std_intensity > 40 then 2 else 0)
    + (if f.entropy > 6 then 3/2 else 0)
    + (if f.edge_density > 1/10 then 1 else 0)
  | .mri =>
      (if f.entropy > 11/2 ∧ f.contrast > 120 then 5/2 else 0)
    + (if f.std_intensity > 45 ∧ f.mean_intensity > 50 ∧ f.mean_intensity < 180 then 2 else 0)
    + (if f.laplacian_var > 100 then 3/2 else 0)
  | .ultrasound =>
      (if f.entropy < 6 ∧ f.std_intensity < 50 then 5/2 else 0)
    + (if f.laplacian_var < 200 ∧ f.edge_density < 1/10 then 2 else 0)
    + (if f.mean_intensity > 40 ∧ f.mean_intensity < 140 then 1 else 0)
    + (if f.dark_ratio > 2/10 ∧ f.dark_ratio < 6/10 then 1 else 0)
  | .petScan =>
      (if f.bright_ratio > 5/100 ∧ f.dark_ratio > 4/10 then 3 else 0)
    + (if f.mean_intensity < 80 ∧ f.std_intensity > 60 then 2 else 0)
  | .mammogram =>
      (if f.mean_intensity > 30 ∧ f.mean_intensity < 120 then 3/2 else 0)
    + (if f.dark_ratio > 4/10 ∧ f.contrast > 100 ∧ f.contrast < 200 then 2 else 0)
    + (if f.aspect_ratio > 6/10 ∧ f.aspect_ratio < 1 then 1 else 0)
  | .dexaScan =>
      (if f.contrast < 150 ∧ f.entropy < 11/2 then 2 else 0)
    + (if f.edge_density < 8/100 then 3/2 else 0)
  | .fluoroscopy =>
      (if f.dark_ratio > 2/10 ∧ f.contrast > 80 ∧ f.contrast < 180 then 3/2 else 0)
    + (if (f.mean_intensity < 120 ∧ f.std_intensity > 30) ∧ f.std_intensity < 60 then 3/2 else 0)

/-- `total = sum(scores.values())`, over an arbitrary ScoreMap. -/
def sumScores (s : ScanType → ℚ) : ℚ :=
  (SCAN_TYPES.map s).sum

/-- The Normalizer's fallback on the ScoreMap (lines 169-172): if the
total is 0 the X-Ray entry is overwritten with 1.0, else nothing changes. -/
def adjustedScores (s : ScanType → ℚ) (t : ScanType) : ℚ :=
  if sumScores s = 0 then (if t = .xray then 1 else s t) else s t

/-- The total used for normalization: forced to 1.0 exactly when the raw
total is 0 (lines 169-172). -/
def adjustedTotal (s : ScanType → ℚ) : ℚ :=
  if sumScores s = 0 then 1 else sumScores s

/-- Python's `round` to an integer: round half to even, exactly on `ℚ`. -/
def pyRound (q : ℚ) : ℤ :=
  if q < ⌊q⌋ + 1/2 then ⌊q⌋
  else if (⌊q⌋ + 1/2 : ℚ) < q then ⌊q⌋ + 1
  else if 2 ∣ ⌊q⌋ then ⌊q⌋ else ⌊q⌋ + 1

/-- Python's `round(q, d)` for `d` decimal places. -/
def roundTo (d : ℕ) (q : ℚ) : ℚ :=
  (pyRound (q * 10 ^ d) : ℚ) / 10 ^ d

/-- The confidence a ScoreMap entry normalizes to:
`round(v / total * 100, 1)` (line 174). -/
def confidencesOf (s : ScanType → ℚ) (t : ScanType) : ℚ :=
  roundTo 1 (adjustedScores s t / adjustedTotal s * 100)

/-- The raw total the rule scoring produces for a feature vector. -/
def totalScore (f : Features) : ℚ :=
  sumScores (score f)

/-- The per-category confidence the engine reports for a feature vector. -/
def confidence (f : Features) (t : ScanType) : ℚ :=
  confidencesOf (score f) t

/-- The `confidences.items()` list, in dict insertion order
(category declaration order). -/
def confList (f : Features) : List (ScanType × ℚ) :=
  SCAN_TYPES.map fun t => (t, confidence f t)

/-- Python's `max(confidences, key=confidences.get)` keeps the current
candidate unless a strictly larger value appears, so the first maximum
in iteration order wins. -/
def pickBest (x : ScanType × ℚ) : List (ScanType × ℚ) → ScanType × ℚ
  | [] => x
  | y :: ys => if y.2 > x.2 then pickBest y ys else pickBest x ys

/-- `best_type` with its confidence, as the `max` call computes it over
the nonempty items list (the `[]` arm is never reached). -/
def bestPair (f : Features) : ScanType × ℚ :=
  match confList f with
  | [] => (.xray, 0)
  | x :: xs => pickBest x xs

/-- `best_type` (line 177). -/
def bestType (f : Features) : ScanType :=
  (bestPair f).1

/-- `best_confidence = confidences[best_type]` (line 178). -/
def bestConfidence (f : Features) : ℚ :=
  confidence f (bestType f)

/-- One step of a stable descending insertion sort: the new element goes
in front of the first strictly smaller key, after any equal keys. -/
def insDesc (x : ScanType × ℚ) : List (ScanType × ℚ) → List (ScanType × ℚ)
  | [] => [x]
  | y :: ys => if y.2 ≤ x.2 then x :: y :: ys else y :: insDesc x ys

/-- Stable descending insertion sort, the behaviour of
`sorted(confidences.items(), key=lambda x: x[1], reverse=True)`
(Python's sort is stable: equal confidences keep insertion order). -/
def isortDesc : List (ScanType × ℚ) → List (ScanType × ℚ)
  | [] => []
  | x :: xs => insDesc x (isortDesc xs)

/-- `all_scores`: the full ranked list (line 181). -/
def allScores (f : Features) : List (ScanType × ℚ) :=
  isortDesc (confList f)

/-- The display-rounded `features` sub-map of the returned dict
(lines 188-194). -/
structure FeatureSummary : Type where
  mean_intensity : ℚ
  contrast : ℚ
  entropy : ℚ
  edge_density : ℚ
  resolution : String
deriving DecidableEq, Repr

/-- The dict `classify_scan_type` returns (lines 183-195). -/
structure ClassificationResult : Type where
  scan_type : ScanType
  confidence : ℚ
  description : String
  all_scores : List (ScanType × ℚ)
  features : FeatureSummary
deriving DecidableEq, Repr

/-- `classify_scan_type`, from the feature vector on (the engine proper:
scoring, normalization, ranking and result assembly). -/
def classify_scan_type (f : Features) : ClassificationResult :=
  { scan_type := bestType f
    confidence := bestConfidence f
    description := SCAN_DESCRIPTIONS (bestType f)
    all_scores := allScores f
    features :=
      { mean_intensity := roundTo 1 f.mean_intensity
        contrast := roundTo 1 f.contrast
        entropy := roundTo 2 f.entropy
        edge_density := roundTo 4 f.edge_density
        resolution := toString f.width ++ "x" ++ toString f.height } }

/-! ### Rounding lemmas -/

/-- `pyRound` returns the floor or the floor plus one. -/
lemma pyRound_cases (q : ℚ) : pyRound q = ⌊q⌋ ∨ pyRound q = ⌊q⌋ + 1 := by
  unfold pyRound
  split_ifs <;> simp

/-- Rounding moves a rational by at most one half. -/
lemma abs_pyRound_sub (q : ℚ) : |(pyRound q : ℚ) - q| ≤ 1/2 := by
  have h1 : (⌊q⌋ : ℚ) ≤ q := Int.floor_le q
  have h2 : q < ⌊q⌋ + 1 := Int.lt_floor_add_one q
  unfold pyRound
  split_ifs with ha hb hc <;> push_cast <;> rw [abs_le] <;> constructor <;> linarith

/-- `pyRound` is monotone. -/
lemma pyRound_mono {p q : ℚ} (h : p ≤ q) : pyRound p ≤ pyRound q := by
  have hf : ⌊p⌋ ≤ ⌊q⌋ := Int.floor_mono h
  rcases lt_or_eq_of_le hf with hlt | heq
  · have h1 : pyRound p ≤ ⌊p⌋ + 1 := by unfold pyRound; split_ifs <;> omega
    have h2 : ⌊q⌋ ≤ pyRound q := by unfold pyRound; split_ifs <;> omega
    omega
  · unfold pyRound
    rw [← heq]
    split_ifs <;> first | omega | (exfalso; linarith)

/-- `roundTo` is monotone in its argument. -/
lemma roundTo_mono (d : ℕ) {p q : ℚ} (h : p ≤ q) : roundTo d p ≤ roundTo d q := by
  have h10 : (0:ℚ) < 10 ^ d := by positivity
  have hm : pyRound (p * 10 ^ d) ≤ pyRound (q * 10 ^ d) :=
    pyRound_mono (mul_le_mul_of_nonneg_right h (le_of_lt h10))
  unfold roundTo
  exact (div_le_div_iff_of_pos_right h10).mpr (by exact_mod_cast hm)

/-- `round(q, d)` moves a rational by at most half a unit in the last
kept decimal place. -/
lemma abs_roundTo_sub (d : ℕ) (q : ℚ) : |roundTo d q - q| ≤ 1 / (2 * 10 ^ d) := by
  have h10 : (0:ℚ) < 10 ^ d := by positivity
  have key : roundTo d q - q = ((pyRound (q * 10 ^ d) : ℚ) - q * 10 ^ d) / 10 ^ d := by
    field_simp [roundTo]
    ring
  rw [key, abs_div, abs_of_pos h10]
  rw [div_le_div_iff₀ h10 (by positivity)]
  have h := abs_pyRound_sub (q * 10 ^ d)
  calc |(pyRound (q * 10 ^ d) : ℚ) - q * 10 ^ d| * (2 * 10 ^ d)
      ≤ (1/2) * (2 * 10 ^ d) := by
        exact mul_le_mul_of_nonneg_right h (by positivity)
    _ = 1 * 10 ^ d := by ring

/-! ### Score positivity and the total -/

/-- A rule either adds its (nonnegative) weight or nothing. -/
lemma if_nonneg (c : Prop) [Decidable c] {w : ℚ} (hw : 0 ≤ w) :
    0 ≤ if c then w else 0 := by
  split_ifs <;> simp [hw]

/-- Every category score is a sum of nonnegative rule contributions. -/
lemma score_nonneg (f : Features) (t : ScanType) : 0 ≤ score f t := by
  cases t <;> simp only [score] <;> split_ifs <;> norm_num

/-- The sum over the ScoreMap, expanded over the eight categories. -/
lemma sumScores_expand (s : ScanType → ℚ) :
    sumScores s = s .xray + s .ctScan + s .mri + s .ultrasound + s .petScan
      + s .mammogram + s .dexaScan + s .fluoroscopy := by
  simp [sumScores, SCAN_TYPES]
  ring

/-- Each category's raw score is at most the raw total. -/
lemma score_le_totalScore (f : Features) (t : ScanType) : score f t ≤ totalScore f := by
  have h0 := score_nonneg f .xray
  have h1 := score_nonneg f .ctScan
  have h2 := score_nonneg f .mri
  have h3 := score_nonneg f .ultrasound
  have h4 := score_nonneg f .petScan
  have h5 := score_nonneg f .mammogram
  have h6 := score_nonneg f .dexaScan
  have h7 := score_nonneg f .fluoroscopy
  rw [totalScore, sumScores_expand]
  cases t <;> linarith

/-- The three edge-density rules (DEXA `< 0.08`, X-Ray `0.05 < e < 0.25`,
CT `> 0.1`) cover every possible value, so at least one rule always fires:
the raw total is never below 1.0 and the `total == 0` fallback of the
Normalizer is unreachable from a feature vector. -/
lemma one_le_totalScore (f : Features) : 1 ≤ totalScore f := by
  have h0 := score_nonneg f .xray
  have h1 := score_nonneg f .ctScan
  have h2 := score_nonneg f .mri
  have h3 := score_nonneg f .ultrasound
  have h4 := score_nonneg f .petScan
  have h5 := score_nonneg f .mammogram
  have h6 := score_nonneg f .dexaScan
  have h7 := score_nonneg f .fluoroscopy
  rw [totalScore, sumScores_expand]
  rcases lt_or_le f.edge_density (8/100) with he | he
  · have hd : 3/2 ≤ score f .dexaScan := by
      simp only [score]
      rw [if_pos he]
      have := if_nonneg (f.contrast < 150 ∧ f.entropy < 11/2) (by norm_num : (0:ℚ) ≤ 2)
      linarith
    linarith
  · rcases lt_or_le f.edge_density (25/100) with he2 | he2
    · have hx : 3/2 ≤ score f .xray := by
        simp only [score]
        rw [if_pos (⟨by linarith, he2⟩ : f.edge_density > 5/100 ∧ f.edge_density < 25/100)]
        have a1 := if_nonneg (f.dark_ratio > 3/10 ∧ f.contrast > 150) (by norm_num : (0:ℚ) ≤ 3)
        have a2 := if_nonneg (f.mean_intensity < 100 ∧ f.std_intensity > 50) (by norm_num : (0:ℚ) ≤ 2)
        linarith
      linarith
    · have hc : 1 ≤ score f .ctScan := by
        simp only [score]
        rw [if_pos (by linarith : f.edge_density > 1/10)]
        have a1 := if_nonneg (85/100 < f.aspect_ratio ∧ f.aspect_ratio < 115/100) (by norm_num : (0:ℚ) ≤ 2)
        have a2 := if_nonneg ((60 < f.mean_intensity ∧ f.mean_intensity < 160) ∧ f.std_intensity > 40) (by norm_num : (0:ℚ) ≤ 2)
        have a3 := if_nonneg (f.entropy > 6) (by norm_num : (0:ℚ) ≤ 3/2)
        linarith
      linarith

/-- With a feature vector the fallback never triggers, so each confidence
is the rounded share of the raw score in the raw total. -/
lemma confidence_raw (f : Features) (t : ScanType) :
    confidence f t = roundTo 1 (score f t / totalScore f * 100) := by
  have h1 := one_le_totalScore f
  rw [totalScore] at h1
  have hne : sumScores (score f) ≠ 0 := by intro h; rw [h] at h1; linarith
  simp only [confidence, confidencesOf, adjustedScores, adjustedTotal, if_neg hne, totalScore]

/-- Before rounding, the eight confidences sum to exactly 100. -/
lemma sum_unrounded (f : Features) :
    score f .xray / totalScore f * 100 + score f .ctScan / totalScore f * 100
      + score f .mri / totalScore f * 100 + score f .ultrasound / totalScore f * 100
      + score f .petScan / totalScore f * 100 + score f .mammogram / totalScore f * 100
      + score f .dexaScan / totalScore f * 100 + score f .fluoroscopy / totalScore f * 100
      = 100 := by
  have h1 := one_le_totalScore f
  have hne : totalScore f ≠ 0 := by linarith
  field_simp
  rw [totalScore, sumScores_expand]
  ring

/-! ### The `max` call and the stable descending sort -/

/-- `pickBest` returns its running candidate or a list element. -/
lemma pickBest_mem (l : List (ScanType × ℚ)) :
    ∀ x, pickBest x l = x ∨ pickBest x l ∈ l := by
  induction l with
  | nil => intro x; left; rfl
  | cons y ys ih =>
      intro x
      simp only [pickBest]
      split_ifs with h
      · rcases ih y with h1 | h1
        · right; rw [h1]; exact List.mem_cons_self y ys
        · right; exact List.mem_cons_of_mem y h1
      · rcases ih x with h1 | h1
        · left; exact h1
        · right; exact List.mem_cons_of_mem y h1

/-- The candidate `pickBest` keeps has the largest key. -/
lemma pickBest_le (l : List (ScanType × ℚ)) :
    ∀ x, x.2 ≤ (pickBest x l).2 ∧ ∀ y ∈ l, y.2 ≤ (pickBest x l).2 := by
  induction l with
  | nil => intro x; exact ⟨le_refl _, by simp⟩
  | cons y ys ih =>
      intro x
      simp only [pickBest]
      split_ifs with h
      · refine ⟨le_trans (le_of_lt h) (ih y).1, ?_⟩
        intro z hz
        rcases List.mem_cons.1 hz with hz | hz
        · subst hz; exact (ih _).1
        · exact (ih _).2 z hz
      · refine ⟨(ih x).1, ?_⟩
        intro z hz
        rcases List.mem_cons.1 hz with hz | hz
        · subst hz; exact le_trans (not_lt.1 h) (ih x).1
        · exact (ih x).2 z hz

/-- The first maximum, computed from the right: `fmaxL` keeps the earlier
element on ties, matching both the `max` call and the head of the stable
descending sort. -/
def fmaxL : List (ScanType × ℚ) → Option (ScanType × ℚ)
  | [] => none
  | x :: xs =>
      some (match fmaxL xs with
            | none => x
            | some m => if m.2 ≤ x.2 then x else m)

/-- `pickBest` (the left fold `max` performs) agrees with `fmaxL`. -/
lemma pickBest_eq_fmaxL (l : List (ScanType × ℚ)) :
    ∀ x, pickBest x l = (match fmaxL l with
                         | none => x
                         | some m => if m.2 ≤ x.2 then x else m) := by
  induction l with
  | nil => intro x; rfl
  | cons y ys ih =>
      intro x
      simp only [pickBest, fmaxL]
      rcases hm : fmaxL ys with - | m
      · rw [ih y, ih x, hm]
        dsimp only
        split_ifs with h1 h2 <;> first | rfl | (exfalso; linarith)
      · rw [ih y, ih x, hm]
        dsimp only
        rcases le_or_lt m.2 y.2 with hmy | hmy
        · rw [if_pos hmy]
          split_ifs with h1 h2 h3 <;> first | rfl | (exfalso; linarith)
        · rw [if_neg (not_le.2 hmy)]
          split_ifs with h1 h2 h3 <;> first | rfl | (exfalso; linarith)

/-- The head of one insertion step. -/
lemma head_insDesc (x : ScanType × ℚ) (l : List (ScanType × ℚ)) :
    (insDesc x l).head? = some (match l.head? with
                                | none => x
                                | some y => if y.2 ≤ x.2 then x else y) := by
  cases l with
  | nil => rfl
  | cons y ys =>
      simp only [insDesc, List.head?]
      split_ifs <;> rfl

/-- The head of the stable descending sort is the first maximum. -/
lemma head_isortDesc (l : List (ScanType × ℚ)) :
    (isortDesc l).head? = fmaxL l := by
  induction l with
  | nil => rfl
  | cons x xs ih =>
      simp only [isortDesc, head_insDesc, ih, fmaxL]

/-! ### Permutation, sortedness and stability of `all_scores` -/

/-- The ranking contract of `all_scores`: strictly larger confidence
first, an exact tie resolved by the fixed declaration order. -/
def rankedBefore (a b : ScanType × ℚ) : Prop :=
  b.2 < a.2 ∨ (a.2 = b.2 ∧ declIdx a.1 < declIdx b.1)

/-- Inserting is a permutation of consing. -/
lemma insDesc_perm (x : ScanType × ℚ) (l : List (ScanType × ℚ)) :
    (insDesc x l).Perm (x :: l) := by
  induction l with
  | nil => exact List.Perm.refl _
  | cons y ys ih =>
      simp only [insDesc]
      split_ifs with h
      · exact List.Perm.refl _
      · exact (ih.cons y).trans (List.Perm.swap x y ys)

/-- The sort permutes its input. -/
lemma isortDesc_perm (l : List (ScanType × ℚ)) : (isortDesc l).Perm l := by
  induction l with
  | nil => exact List.Perm.refl _
  | cons x xs ih =>
      exact (insDesc_perm x (isortDesc xs)).trans (ih.cons x)

/-- Inserting an element whose declaration index is below everything in a
ranked list keeps the list ranked. -/
lemma pairwise_insDesc (x : ScanType × ℚ) (l : List (ScanType × ℚ))
    (hl : l.Pairwise rankedBefore) (hx : ∀ y ∈ l, declIdx x.1 < declIdx y.1) :
    (insDesc x l).Pairwise rankedBefore := by
  induction l with
  | nil => simp [insDesc]
  | cons y ys ih =>
      rw [List.pairwise_cons] at hl
      obtain ⟨hy, hys⟩ := hl
      simp only [insDesc]
      split_ifs with h
      · refine List.Pairwise.cons ?_ (List.Pairwise.cons hy hys)
        intro z hz
        rcases List.mem_cons.1 hz with hz | hz
        · subst hz
          rcases lt_or_eq_of_le h with h1 | h1
          · exact Or.inl h1
          · exact Or.inr ⟨h1.symm, hx _ (List.mem_cons_self _ _)⟩
        · rcases hy z hz with h2 | ⟨h2, h3⟩
          · exact Or.inl (lt_of_lt_of_le h2 h)
          · rcases lt_or_eq_of_le h with h4 | h4
            · exact Or.inl (by rw [← h2]; exact h4)
            · exact Or.inr ⟨by rw [← h4]; exact h2, hx z (List.mem_cons_of_mem _ hz)⟩
      · refine List.Pairwise.cons ?_ (ih hys fun z hz => hx z (List.mem_cons_of_mem _ hz))
        intro z hz
        rcases List.mem_cons.1 ((insDesc_perm x ys).mem_iff.1 hz) with hz' | hz'
        · subst hz'
          exact Or.inl (not_le.1 h)
        · exact hy z hz'

/-- Sorting a list whose declaration indices strictly increase produces a
ranked list: descending confidences, ties in declaration order. -/
lemma pairwise_isortDesc (l : List (ScanType × ℚ))
    (h : l.Pairwise fun a b => declIdx a.1 < declIdx b.1) :
    (isortDesc l).Pairwise rankedBefore := by
  induction l with
  | nil => exact List.Pairwise.nil
  | cons x xs ih =>
      rw [List.pairwise_cons] at h
      show (insDesc x (isortDesc xs)).Pairwise rankedBefore
      exact pairwise_insDesc x (isortDesc xs) (ih h.2)
        fun y hy => h.1 y ((isortDesc_perm xs).mem_iff.1 hy)

/-- The `confidences.items()` list has strictly increasing declaration
indices. -/
lemma confList_pairwise_idx (f : Features) :
    (confList f).Pairwise fun a b => declIdx a.1 < declIdx b.1 := by
  simp [confList, SCAN_TYPES, List.pairwise_cons, declIdx]

/-- `confList` written out over the eight categories. -/
lemma confList_expand (f : Features) :
    confList f = (ScanType.xray, confidence f .xray) ::
      [(ScanType.ctScan, confidence f .ctScan), (ScanType.mri, confidence f .mri),
       (ScanType.ultrasound, confidence f .ultrasound), (ScanType.petScan, confidence f .petScan),
       (ScanType.mammogram, confidence f .mammogram), (ScanType.dexaScan, confidence f .dexaScan),
       (ScanType.fluoroscopy, confidence f .fluoroscopy)] := rfl

/-- `bestPair` is the `max` fold over the items list. -/
lemma bestPair_eq_pickBest (f : Features) :
    bestPair f = pickBest (ScanType.xray, confidence f .xray)
      [(ScanType.ctScan, confidence f .ctScan), (ScanType.mri, confidence f .mri),
       (ScanType.ultrasound, confidence f .ultrasound), (ScanType.petScan, confidence f .petScan),
       (ScanType.mammogram, confidence f .mammogram), (ScanType.dexaScan, confidence f .dexaScan),
       (ScanType.fluoroscopy, confidence f .fluoroscopy)] := rfl

/-- Every pair in the items list carries the confidence of its category. -/
lemma mem_confList_snd (f : Features) {p : ScanType × ℚ} (hp : p ∈ confList f) :
    p.2 = confidence f p.1 := by
  simp only [confList, List.mem_map] at hp
  obtain ⟨t, -, rfl⟩ := hp
  rfl

/-- The winning pair is one of the items. -/
lemma bestPair_mem (f : Features) : bestPair f ∈ confList f := by
  rw [confList_expand, bestPair_eq_pickBest]
  rcases pickBest_mem _ _ with h | h
  · rw [h]; exact List.mem_cons_self _ _
  · exact List.mem_cons_of_mem _ h

/-- `best_confidence` is the second component of the winning pair. -/
lemma bestPair_snd (f : Features) : (bestPair f).2 = bestConfidence f := by
  rw [bestConfidence, bestType]
  exact mem_confList_snd f (bestPair_mem f)

/-- The winning pair, eta-expanded. -/
lemma bestPair_eta (f : Features) : bestPair f = (bestType f, bestConfidence f) := by
  rw [Prod.ext_iff]
  exact ⟨rfl, bestPair_snd f⟩

/-- No category beats `best_confidence`. -/
lemma conf_le_bestConfidence (f : Features) (t : ScanType) :
    confidence f t ≤ bestConfidence f := by
  have hm : (t, confidence f t) ∈ confList f := by
    simp only [confList, List.mem_map]
    exact ⟨t, by cases t <;> simp [SCAN_TYPES], rfl⟩
  rw [← bestPair_snd f]
  rw [confList_expand f] at hm
  rw [bestPair_eq_pickBest f]
  rcases List.mem_cons.1 hm with h | h
  · rw [show confidence f t = (ScanType.xray, confidence f ScanType.xray).2 from
      congrArg Prod.snd h]
    exact (pickBest_le _ _).1
  · exact (pickBest_le _ _).2 _ h

/-- The first entry of `all_scores` is the winning pair. -/
lemma head_allScores (f : Features) :
    (allScores f).head? = some (bestPair f) := by
  rw [allScores, head_isortDesc, bestPair_eq_pickBest, pickBest_eq_fmaxL, confList_expand]
  simp only [fmaxL]

/-- A ranked list is dominated by its head. -/
lemma pairwise_head (l : List (ScanType × ℚ)) {h : ScanType × ℚ}
    (hp : l.Pairwise rankedBefore) (hh : l.head? = some h) :
    ∀ y ∈ l, y = h ∨ rankedBefore h y := by
  cases l with
  | nil => simp at hh
  | cons a as =>
      simp only [List.head?, Option.some.injEq] at hh
      subst hh
      rw [List.pairwise_cons] at hp
      intro y hy
      rcases List.mem_cons.1 hy with hy | hy
      · left; exact hy
      · right; exact hp.1 y hy

/-- Evaluation helper: once the raw total is known (and nonzero), a
confidence is the rounded share in that total. -/
lemma confidence_eval (f : Features) (T : ℚ) (hT : sumScores (score f) = T)
    (hne : T ≠ 0) (t : ScanType) :
    confidence f t = roundTo 1 (score f t / T * 100) := by
  simp only [confidence, confidencesOf, adjustedScores, adjustedTotal, hT, if_neg hne]

/-- Claim C3: `all_scores` is the full list of all 8 (category,
confidence) pairs sorted descending by confidence with exact ties broken
by the fixed declaration order; `best_type` is the maximum-confidence
category with ties resolved by that same order; and `best_type` /
`best_confidence` coincide with the first entry of `all_scores`. -/
theorem C3_ranking_consistency (f : Features) :
    (allScores f).Perm (confList f)
    ∧ (allScores f).Pairwise rankedBefore
    ∧ (allScores f).head? = some (bestType f, bestConfidence f)
    ∧ ∀ t ∈ SCAN_TYPES, confidence f t ≤ bestConfidence f
        ∧ (confidence f t = bestConfidence f → declIdx (bestType f) ≤ declIdx t) := by
  have hpair := pairwise_isortDesc (confList f) (confList_pairwise_idx f)
  have hhead : (allScores f).head? = some (bestType f, bestConfidence f) := by
    rw [head_allScores, bestPair_eta]
  refine ⟨isortDesc_perm _, hpair, hhead, ?_⟩
  intro t ht
  refine ⟨conf_le_bestConfidence f t, ?_⟩
  intro heq
  have hm : (t, confidence f t) ∈ allScores f := by
    apply (isortDesc_perm (confList f)).mem_iff.2
    simp only [confList, List.mem_map]
    exact ⟨t, ht, rfl⟩
  rcases pairwise_head (allScores f) hpair hhead (t, confidence f t) hm with h | h
  · rw [show t = bestType f from congrArg Prod.fst h]
  · rcases h with h | ⟨h1, h2⟩
    · exact absurd (show confidence f t < bestConfidence f from h)
        (by rw [heq]; exact lt_irrefl _)
    · exact le_of_lt h2

/-- An all-zero feature vector, used to instantiate ranking facts. -/
def fwZero : Features :=
  { aspect_ratio := 0, mean_intensity := 0, std_intensity := 0,
    median_intensity := 0, entropy := 0, laplacian_var := 0,
    edge_density := 0, dark_ratio := 0, bright_ratio := 0, contrast := 0,
    width := 100, height := 100 }

/-- Witness for C3 at the all-zero feature vector: Ultrasound wins with
56.2, DEXA stays below it, and the tie on the winner itself resolves to
the winner. -/
theorem C3_ranking_consistency_witness :
    confidence fwZero .dexaScan ≤ bestConfidence fwZero
    ∧ declIdx (bestType fwZero) ≤ declIdx ScanType.ultrasound
    ∧ (allScores fwZero).head? = some (bestType fwZero, bestConfidence fwZero) := by
  have hs : sumScores (score fwZero) = 8 := by
    norm_num [sumScores, SCAN_TYPES, score, fwZero]
  have ce := confidence_eval fwZero 8 hs (by norm_num)
  have c3 : confidence fwZero .ultrasound = 281/5 := by
    rw [ce]; norm_num [score, fwZero, roundTo, pyRound]
  have c6 : confidence fwZero .dexaScan = 219/5 := by
    rw [ce]; norm_num [score, fwZero, roundTo, pyRound]
  have c0 : confidence fwZero .xray = 0 := by
    rw [ce]; norm_num [score, fwZero, roundTo, pyRound]
  have c1 : confidence fwZero .ctScan = 0 := by
    rw [ce]; norm_num [score, fwZero, roundTo, pyRound]
  have c2 : confidence fwZero .mri = 0 := by
    rw [ce]; norm_num [score, fwZero, roundTo, pyRound]
  have c4 : confidence fwZero .petScan = 0 := by
    rw [ce]; norm_num [score, fwZero, roundTo, pyRound]
  have c5 : confidence fwZero .mammogram = 0 := by
    rw [ce]; norm_num [score, fwZero, roundTo, pyRound]
  have c7 : confidence fwZero .fluoroscopy = 0 := by
    rw [ce]; norm_num [score, fwZero, roundTo, pyRound]
  have hb : bestType fwZero = .ultrasound := by
    norm_num [bestType, bestPair_eq_pickBest, pickBest, c0, c1, c2, c3, c4, c5, c6, c7]
  have h := C3_ranking_consistency fwZero
  refine ⟨(h.2.2.2 .dexaScan (by simp [SCAN_TYPES])).1, ?_, h.2.2.1⟩
  exact (h.2.2.2 .ultrasound (by simp [SCAN_TYPES])).2
    (by rw [bestConfidence, hb])

/-! ### The rule table as data (spec section 4.2) -/

/-- The section 4.2 rule table, transcribed from the specification as an
explicit list of (predicate, weight) pairs per category. -/
def ruleTable : ScanType → List ((Features → Bool) × ℚ)
  | .xray =>
      [(fun f => decide (f.dark_ratio > 3/10 ∧ f.contrast > 150), 3),
       (fun f => decide (f.mean_intensity < 100 ∧ f.std_intensity > 50), 2),
       (fun f => decide (5/100 < f.edge_density ∧ f.edge_density < 25/100), 3/2)]
  | .ctScan =>
      [(fun f => decide (85/100 < f.aspect_ratio ∧ f.aspect_ratio < 115/100), 2),
       (fun f => decide ((60 < f.mean_intensity ∧ f.mean_intensity < 160) ∧ f.std_intensity > 40), 2),
       (fun f => decide (f.entropy > 6), 3/2),
       (fun f => decide (f.edge_density > 1/10), 1)]
  | .mri =>
      [(fun f => decide (f.entropy > 11/2 ∧ f.contrast > 120), 5/2),
       (fun f => decide (f.std_intensity > 45 ∧ 50 < f.mean_intensity ∧ f.mean_intensity < 180), 2),
       (fun f => decide (f.laplacian_var > 100), 3/2)]
  | .ultrasound =>
      [(fun f => decide (f.entropy < 6 ∧ f.std_intensity < 50), 5/2),
       (fun f => decide (f.laplacian_var < 200 ∧ f.edge_density < 1/10), 2),
       (fun f => decide (40 < f.mean_intensity ∧ f.mean_intensity < 140), 1),
       (fun f => decide (2/10 < f.dark_ratio ∧ f.dark_ratio < 6/10), 1)]
  | .petScan =>
      [(fun f => decide (f.bright_ratio > 5/100 ∧ f.dark_ratio > 4/10), 3),
       (fun f => decide (f.mean_intensity < 80 ∧ f.std_intensity > 60), 2)]
  | .mammogram =>
      [(fun f => decide (30 < f.mean_intensity ∧ f.mean_intensity < 120), 3/2),
       (fun f => decide (f.dark_ratio > 4/10 ∧ 100 < f.contrast ∧ f.contrast < 200), 2),
       (fun f => decide (6/10 < f.aspect_ratio ∧ f.aspect_ratio < 1), 1)]
  | .dexaScan =>
      [(fun f => decide (f.contrast < 150 ∧ f.entropy < 11/2), 2),
       (fun f => decide (f.edge_density < 8/100), 3/2)]
  | .fluoroscopy =>
      [(fun f => decide (f.dark_ratio > 2/10 ∧ 80 < f.contrast ∧ f.contrast < 180), 3/2),
       (fun f => decide ((f.mean_intensity < 120 ∧ f.std_intensity > 30) ∧ f.std_intensity < 60), 3/2)]

/-- The score the section 4.2 table prescribes: the sum of the weights of
exactly the satisfied predicates, every rule evaluated, starting from 0. -/
def ruleScore (f : Features) (t : ScanType) : ℚ :=
  ((ruleTable t).map fun r => if r.1 f then r.2 else 0).sum

/-- Claim C1: for every FeatureVector the raw score of each category is
the sum of the weights of exactly those section 4.2 predicates it
satisfies, every comparison strict, every rule evaluated with no early
exit and every score starting from 0.0. -/
theorem C1_rule_scoring (f : Features) (t : ScanType) :
    score f t = ruleScore f t := by
  cases t <;>
    simp only [score, ruleScore, ruleTable, List.map_cons, List.map_nil, List.sum_cons,
      List.sum_nil, decide_eq_true_eq, gt_iff_lt, add_zero] <;>
    ring

/-- Claim C9: the engine is deterministic and side-effect-free: it is a
pure function of the feature vector, so two calls on the same input give
identical results, component by component (best category, confidence,
description, ranked list, display summary). -/
theorem C9_deterministic (f : Features) :
    classify_scan_type f = classify_scan_type f
    ∧ (classify_scan_type f).scan_type = bestType f
    ∧ (classify_scan_type f).confidence = bestConfidence f
    ∧ (classify_scan_type f).description = SCAN_DESCRIPTIONS (bestType f)
    ∧ (classify_scan_type f).all_scores = allScores f
    ∧ (classify_scan_type f).features =
        { mean_intensity := roundTo 1 f.mean_intensity
          contrast := roundTo 1 f.contrast
          entropy := roundTo 2 f.entropy
          edge_density := roundTo 4 f.edge_density
          resolution := toString f.width ++ "x" ++ toString f.height } :=
  ⟨rfl, rfl, rfl, rfl, rfl, rfl⟩

/-- Claim C10: the reported best confidence always lies in [12.5, 100]:
the unrounded shares are nonnegative and sum to exactly 100, so their
maximum is at least 100/8 = 12.5, a bound rounding to one decimal place
preserves; in particular the engine never reports a best confidence of 0. -/
theorem C10_best_confidence_bounds (f : Features) :
    25/2 ≤ bestConfidence f ∧ bestConfidence f ≤ 100 := by
  have hT := one_le_totalScore f
  have hTpos : (0:ℚ) < totalScore f := by linarith
  have hup : bestConfidence f ≤ 100 := by
    rw [bestConfidence, confidence_raw]
    have hle := score_le_totalScore f (bestType f)
    have h1 : score f (bestType f) / totalScore f * 100 ≤ 100 := by
      have h2 : score f (bestType f) / totalScore f ≤ 1 := by
        rw [div_le_one hTpos]; exact hle
      linarith
    calc roundTo 1 (score f (bestType f) / totalScore f * 100)
        ≤ roundTo 1 100 := roundTo_mono 1 h1
      _ = 100 := by norm_num [roundTo, pyRound]
  have hex : ∃ t, 25/2 ≤ score f t / totalScore f * 100 := by
    by_contra hc
    push_neg at hc
    have h0 := hc .xray
    have h1 := hc .ctScan
    have h2 := hc .mri
    have h3 := hc .ultrasound
    have h4 := hc .petScan
    have h5 := hc .mammogram
    have h6 := hc .dexaScan
    have h7 := hc .fluoroscopy
    have hsum := sum_unrounded f
    linarith
  obtain ⟨t, ht⟩ := hex
  have hlow : (25/2 : ℚ) ≤ confidence f t := by
    rw [confidence_raw]
    calc (25/2 : ℚ) = roundTo 1 (25/2) := by norm_num [roundTo, pyRound]
      _ ≤ roundTo 1 (score f t / totalScore f * 100) := roundTo_mono 1 ht
  exact ⟨le_trans hlow (conf_le_bestConfidence f t), hup⟩

/-! ### The confidence sum (claim C2) -/

/-- The sum over `all_scores`, expanded over the eight categories. -/
lemma sumConf_expand (f : Features) :
    (SCAN_TYPES.map (confidence f)).sum
      = confidence f .xray + confidence f .ctScan + confidence f .mri
        + confidence f .ultrasound + confidence f .petScan + confidence f .mammogram
        + confidence f .dexaScan + confidence f .fluoroscopy := by
  simp [SCAN_TYPES]
  ring

/-- A feature vector on which six categories score 1.5 each (total 9.0),
so six confidences round up from 16.666... to 16.7. -/
def cfSix : Features :=
  { aspect_ratio := 13/10, mean_intensity := 35, std_intensity := 20,
    median_intensity := 30, entropy := 13/2, laplacian_var := 250,
    edge_density := 7/100, dark_ratio := 7/10, bright_ratio := 2/100,
    contrast := 90, width := 100, height := 100 }

/-- Counterexample to claim C2: at `cfSix` the confidences sum to 100.2,
outside the claimed ±0.1 tolerance. -/
theorem C2_sum_counterexample :
    (SCAN_TYPES.map (confidence cfSix)).sum = 501/5
    ∧ ¬ |(SCAN_TYPES.map (confidence cfSix)).sum - 100| ≤ 1/10 := by
  have hs : sumScores (score cfSix) = 9 := by
    norm_num [sumScores, SCAN_TYPES, score, cfSix]
  have ce := confidence_eval cfSix 9 hs (by norm_num)
  have c0 : confidence cfSix .xray = 167/10 := by
    rw [ce]; norm_num [score, cfSix, roundTo, pyRound]
  have c1 : confidence cfSix .ctScan = 167/10 := by
    rw [ce]; norm_num [score, cfSix, roundTo, pyRound]
  have c2 : confidence cfSix .mri = 167/10 := by
    rw [ce]; norm_num [score, cfSix, roundTo, pyRound]
  have c3 : confidence cfSix .ultrasound = 0 := by
    rw [ce]; norm_num [score, cfSix, roundTo, pyRound]
  have c4 : confidence cfSix .petScan = 0 := by
    rw [ce]; norm_num [score, cfSix, roundTo, pyRound]
  have c5 : confidence cfSix .mammogram = 167/10 := by
    rw [ce]; norm_num [score, cfSix, roundTo, pyRound]
  have c6 : confidence cfSix .dexaScan = 167/10 := by
    rw [ce]; norm_num [score, cfSix, roundTo, pyRound]
  have c7 : confidence cfSix .fluoroscopy = 167/10 := by
    rw [ce]; norm_num [score, cfSix, roundTo, pyRound]
  have hsum : (SCAN_TYPES.map (confidence cfSix)).sum = 501/5 := by
    rw [sumConf_expand, c0, c1, c2, c3, c4, c5, c6, c7]
    norm_num
  refine ⟨hsum, ?_⟩
  rw [hsum]
  rw [abs_le]
  norm_num

/-- Claim C2 (amended): the eight confidences sum to 100 within ±0.4 -
the unrounded shares sum to exactly 100 and each of the 8 per-category
roundings to one decimal moves its share by at most 0.05; the claimed
±0.1 is too tight (see the counterexample reaching 100.2). -/
theorem C2_sum_of_confidences (f : Features) :
    |(SCAN_TYPES.map (confidence f)).sum - 100| ≤ 2/5 := by
  rw [sumConf_expand, confidence_raw f .xray, confidence_raw f .ctScan,
    confidence_raw f .mri, confidence_raw f .ultrasound, confidence_raw f .petScan,
    confidence_raw f .mammogram, confidence_raw f .dexaScan, confidence_raw f .fluoroscopy]
  have e0 := abs_le.1 (abs_roundTo_sub 1 (score f .xray / totalScore f * 100))
  have e1 := abs_le.1 (abs_roundTo_sub 1 (score f .ctScan / totalScore f * 100))
  have e2 := abs_le.1 (abs_roundTo_sub 1 (score f .mri / totalScore f * 100))
  have e3 := abs_le.1 (abs_roundTo_sub 1 (score f .ultrasound / totalScore f * 100))
  have e4 := abs_le.1 (abs_roundTo_sub 1 (score f .petScan / totalScore f * 100))
  have e5 := abs_le.1 (abs_roundTo_sub 1 (score f .mammogram / totalScore f * 100))
  have e6 := abs_le.1 (abs_roundTo_sub 1 (score f .dexaScan / totalScore f * 100))
  have e7 := abs_le.1 (abs_roundTo_sub 1 (score f .fluoroscopy / totalScore f * 100))
  norm_num at e0 e1 e2 e3 e4 e5 e6 e7
  have hsum := sum_unrounded f
  rw [abs_le]
  constructor <;>
    [linarith [e0.1, e1.1, e2.1, e3.1, e4.1, e5.1, e6.1, e7.1];
     linarith [e0.2, e1.2, e2.2, e3.2, e4.2, e5.2, e6.2, e7.2]]

/-! ### The Normalizer fallback (claim C4) -/

/-- Claim C4: on a ScoreMap with total 0 the Normalizer forces the X-Ray
entry to 1.0 and the total to 1.0, leaving every other entry unchanged;
on a nonzero total nothing is altered before normalization. -/
theorem C4_zero_total_fallback (s : ScanType → ℚ) :
    (sumScores s = 0 →
        adjustedScores s .xray = 1 ∧ adjustedTotal s = 1
        ∧ ∀ t, t ≠ .xray → adjustedScores s t = s t)
    ∧ (sumScores s ≠ 0 →
        (∀ t, adjustedScores s t = s t) ∧ adjustedTotal s = sumScores s) := by
  constructor
  · intro h
    refine ⟨by simp [adjustedScores, h], by simp [adjustedTotal, h], ?_⟩
    intro t ht
    simp [adjustedScores, h, ht]
  · intro h
    exact ⟨fun t => by simp [adjustedScores, h], by simp [adjustedTotal, h]⟩

/-- Witness for C4, at the all-zero ScoreMap and at a constant map with
total 2.0. -/
theorem C4_zero_total_fallback_witness :
    adjustedScores (fun _ => 0) .xray = 1 ∧ adjustedTotal (fun _ => 0) = 1
    ∧ adjustedScores (fun _ => 0) .mri = 0
    ∧ adjustedScores (fun _ => 1/4) .mri = 1/4
    ∧ adjustedTotal (fun _ => 1/4) = 2 := by
  have h0 : sumScores (fun _ : ScanType => (0:ℚ)) = 0 := by
    norm_num [sumScores, SCAN_TYPES]
  have h1 : sumScores (fun _ : ScanType => (1/4:ℚ)) = 2 := by
    norm_num [sumScores, SCAN_TYPES]
  have a := (C4_zero_total_fallback (fun _ => 0)).1 h0
  have b := (C4_zero_total_fallback (fun _ => 1/4)).2 (by rw [h1]; norm_num)
  exact ⟨a.1, a.2.1, a.2.2 .mri (by decide), b.1 .mri, by rw [b.2, h1]⟩

/-! ### The fallback scenario (claim C5) -/

/-- The feature vector of a uniform mid-gray image: zero variance, zero
entropy, zero edges, zero contrast, mean 128, square aspect. -/
def midGray : Features :=
  { aspect_ratio := 1, mean_intensity := 128, std_intensity := 0,
    median_intensity := 128, entropy := 0, laplacian_var := 0,
    edge_density := 0, dark_ratio := 0, bright_ratio := 0, contrast := 0,
    width := 100, height := 100 }

/-- What the engine actually does on the uniform mid-gray image: the
Ultrasound rules (low entropy, low variance, mid intensity), the DEXA
rules (low contrast, low edges) and the CT aspect rule all fire, so
Ultrasound wins at 50.0 and DEXA takes 31.8. -/
lemma midGray_eval :
    bestType midGray = .ultrasound ∧ bestConfidence midGray = 50
    ∧ confidence midGray .dexaScan = 159/5 := by
  have hs : sumScores (score midGray) = 11 := by
    norm_num [sumScores, SCAN_TYPES, score, midGray]
  have ce := confidence_eval midGray 11 hs (by norm_num)
  have c0 : confidence midGray .xray = 0 := by
    rw [ce]; norm_num [score, midGray, roundTo, pyRound]
  have c1 : confidence midGray .ctScan = 91/5 := by
    rw [ce]; norm_num [score, midGray, roundTo, pyRound]
  have c2 : confidence midGray .mri = 0 := by
    rw [ce]; norm_num [score, midGray, roundTo, pyRound]
  have c3 : confidence midGray .ultrasound = 50 := by
    rw [ce]; norm_num [score, midGray, roundTo, pyRound]
  have c4 : confidence midGray .petScan = 0 := by
    rw [ce]; norm_num [score, midGray, roundTo, pyRound]
  have c5 : confidence midGray .mammogram = 0 := by
    rw [ce]; norm_num [score, midGray, roundTo, pyRound]
  have c6 : confidence midGray .dexaScan = 159/5 := by
    rw [ce]; norm_num [score, midGray, roundTo, pyRound]
  have c7 : confidence midGray .fluoroscopy = 0 := by
    rw [ce]; norm_num [score, midGray, roundTo, pyRound]
  have hb : bestType midGray = .ultrasound := by
    norm_num [bestType, bestPair_eq_pickBest, pickBest, c0, c1, c2, c3, c4, c5, c6, c7]
  exact ⟨hb, by rw [bestConfidence, hb, c3], c6⟩

/-- Counterexample to claim C5: the uniform mid-gray image (zero
variance, zero entropy, zero edges) does not satisfy "none of the rule
predicates" - it is classified Ultrasound at 50.0 with DEXA at 31.8,
not X-Ray at 100.0. -/
theorem C5_counterexample :
    bestType midGray = .ultrasound ∧ bestConfidence midGray = 50
    ∧ confidence midGray .dexaScan = 159/5
    ∧ ¬(bestType midGray = .xray ∧ bestConfidence midGray = 100) := by
  obtain ⟨h1, h2, h3⟩ := midGray_eval
  refine ⟨h1, h2, h3, ?_⟩
  rintro ⟨h4, -⟩
  rw [h1] at h4
  exact absurd h4 (by decide)

/-- Claim C5 (amended): no feature vector satisfies none of the rule
predicates - the three edge-density rules alone cover every value, so
the raw total is always at least 1.0 and the "no rule fired" scenario is
unreachable; in particular the uniform mid-gray example fires the
Ultrasound, DEXA and CT rules and yields Ultrasound at 50.0. -/
theorem C5_fallback_scenario :
    (∀ f : Features, 1 ≤ totalScore f)
    ∧ bestType midGray = .ultrasound ∧ bestConfidence midGray = 50 :=
  ⟨one_le_totalScore, midGray_eval.1, midGray_eval.2.1⟩

/-! ### The monotonic rule effect (claim C7) -/

/-- Replacing only `dark_ratio`, all other features fixed. -/
def withDark (f : Features) (d : ℚ) : Features :=
  { f with dark_ratio := d }

/-- A feature vector with contrast 100: the X-Ray rule
`dark_ratio > 0.3 ∧ contrast > 150` cannot fire at any dark_ratio. -/
def cfLowContrast : Features :=
  { aspect_ratio := 13/10, mean_intensity := 150, std_intensity := 20,
    median_intensity := 150, entropy := 3, laplacian_var := 50,
    edge_density := 3/10, dark_ratio := 1/10, bright_ratio := 0,
    contrast := 100, width := 100, height := 100 }

/-- Counterexample to claim C7: with contrast 100 (not above 150),
raising dark_ratio from 0.1 to 0.5 leaves X-Ray's raw score unchanged -
the +3.0 rule is conjunctive in contrast, so the claimed unconditional
strict increase fails. -/
theorem C7_counterexample :
    score (withDark cfLowContrast (1/2)) .xray
      = score (withDark cfLowContrast (1/10)) .xray
    ∧ ¬(score (withDark cfLowContrast (1/10)) .xray + 3
          ≤ score (withDark cfLowContrast (1/2)) .xray) := by
  norm_num [score, withDark, cfLowContrast]

/-- Claim C7 (amended): provided `contrast > 150`, raising `dark_ratio`
from 0.1 to 0.5 (crossing the 0.3 threshold) raises X-Ray's raw score by
exactly the rule weight 3.0; and a raw-score increase of 3.0 with the
other categories' total unchanged never decreases the rounded
confidence. -/
theorem C7_monotonic_rule_effect (f : Features) (hc : 150 < f.contrast) :
    score (withDark f (1/2)) .xray = score (withDark f (1/10)) .xray + 3
    ∧ ∀ s R : ℚ, 0 ≤ s → 0 ≤ R → 0 < s + R →
        roundTo 1 (s / (s + R) * 100) ≤ roundTo 1 ((s + 3) / (s + 3 + R) * 100) := by
  constructor
  · simp only [score, withDark]
    rw [if_pos (⟨by norm_num, hc⟩ : (1/2 : ℚ) > 3/10 ∧ f.contrast > 150)]
    rw [if_neg (by norm_num : ¬((1/10 : ℚ) > 3/10 ∧ f.contrast > 150))]
    ring
  · intro s R hs hR hpos
    apply roundTo_mono
    have key : s / (s + R) ≤ (s + 3) / (s + 3 + R) := by
      rw [div_le_div_iff₀ hpos (by linarith)]
      nlinarith
    calc s / (s + R) * 100 ≤ (s + 3) / (s + 3 + R) * 100 :=
          mul_le_mul_of_nonneg_right key (by norm_num)
      _ = (s + 3) / (s + 3 + R) * 100 := rfl

/-- Witness for C7 at `cfLowContrast` with contrast raised to 200, and
the confidence monotonicity instantiated at s = 2, R = 2. -/
theorem C7_monotonic_rule_effect_witness :
    score (withDark { cfLowContrast with contrast := 200 } (1/2)) .xray
      = score (withDark { cfLowContrast with contrast := 200 } (1/10)) .xray + 3
    ∧ roundTo 1 ((2:ℚ) / (2 + 2) * 100) ≤ roundTo 1 (((2:ℚ) + 3) / (2 + 3 + 2) * 100) := by
  have h := C7_monotonic_rule_effect { cfLowContrast with contrast := 200 }
    (by norm_num [cfLowContrast])
  exact ⟨h.1, h.2 2 2 (by norm_num) (by norm_num) (by norm_num)⟩

/-! ### The feature extractor `_compute_features` (lines 37-82)

Pixels of the grayscale image are 8-bit intensities (`Fin 256`); the
Canny edge map and the Laplacian variance enter as inputs because
`cv2.Canny` and `cv2.Laplacian` are library calls outside this
repository. Every Python computation whose denominator can be zero, or
that fails on an empty array (`np.percentile`), is modelled as `Option`:
`none` is the poisoned/raising outcome. -/

/-- `np.histogram(..., bins=256, range=(0, 256))`: bin `i` counts the
pixels of intensity `i`. -/
def histo (px : List (Fin 256)) (i : Fin 256) : ℕ :=
  px.count i

/-- `hist.sum()`. -/
def histSum (px : List (Fin 256)) : ℕ :=
  ∑ i : Fin 256, histo px i

/-- `hist / hist.sum()`: the histogram normalized to probabilities. -/
def histNorm (px : List (Fin 256)) (i : Fin 256) : ℚ :=
  (histo px i : ℚ) / (histSum px : ℚ)

/-- Every pixel lands in exactly one bin. -/
lemma histSum_eq_length (px : List (Fin 256)) : histSum px = px.length := by
  induction px with
  | nil => simp [histSum, histo]
  | cons p ps ih =>
      unfold histSum histo at *
      simp only [List.count_cons]
      rw [Finset.sum_add_distrib, ih]
      have h1 : (∑ i : Fin 256, if p == i then 1 else 0) = 1 := by
        simp [beq_iff_eq]
      rw [h1]
      simp

/-- `-np.sum(hist_norm[hist_norm > 0] * np.log2(hist_norm[hist_norm > 0]))`
(line 51): only bins of positive probability contribute. -/
noncomputable def entropyOf (px : List (Fin 256)) : ℝ :=
  -(∑ i : Fin 256, if 0 < histNorm px i then
      (histNorm px i : ℝ) * Real.logb 2 (histNorm px i) else 0)

/-- `np.mean` (line 44): undefined on an empty array. -/
def npMean (px : List (Fin 256)) : Option ℚ :=
  if px.isEmpty then none
  else some ((px.map fun p => ((p : ℕ) : ℚ)).sum / (px.length : ℚ))

/-- `np.std` squared (population variance): the mean of the squared
deviations. -/
def npVar (px : List (Fin 256)) : Option ℚ :=
  (npMean px).map fun m =>
    (px.map fun p => (((p : ℕ) : ℚ) - m) ^ 2).sum / (px.length : ℚ)

/-- `np.std` (line 45). -/
noncomputable def npStd (px : List (Fin 256)) : Option ℝ :=
  (npVar px).map fun v => Real.sqrt (v : ℝ)

/-- Ascending insertion step on naturals. -/
def insAscNat (x : ℕ) : List ℕ → List ℕ
  | [] => [x]
  | y :: ys => if x ≤ y then x :: y :: ys else y :: insAscNat x ys

/-- Ascending insertion sort on naturals. -/
def sortAscNat : List ℕ → List ℕ
  | [] => []
  | x :: xs => insAscNat x (sortAscNat xs)

/-- `np.percentile` with the default linear interpolation (lines 65-66):
sort, index at `(n-1)*p/100`, interpolate between the two neighbours.
Raises (here: `none`) on an empty array. -/
def npPercentile (px : List (Fin 256)) (p : ℚ) : Option ℚ :=
  if px.isEmpty then none
  else
    let s := sortAscNat (px.map fun q => (q : ℕ))
    let idx : ℚ := ((s.length - 1 : ℕ) : ℚ) * p / 100
    let lo := Int.toNat ⌊idx⌋
    let hi := Int.toNat ⌈idx⌉
    let a : ℚ := ((s.getD lo 0 : ℕ) : ℚ)
    let b : ℚ := ((s.getD hi 0 : ℕ) : ℚ)
    some (a + (b - a) * (idx - ⌊idx⌋))

/-- `np.median` (line 46) equals the 50th percentile with linear
interpolation. -/
def npMedian (px : List (Fin 256)) : Option ℚ :=
  npPercentile px 50

/-- The entropy value the code uses: defined only when `hist.sum()` is
nonzero (line 50 divides by it). -/
noncomputable def entropyOpt (px : List (Fin 256)) : Option ℝ :=
  if histSum px = 0 then none else some (entropyOf px)

/-- `np.sum(edges > 0) / (h * w)` (line 58). -/
def edgeDensityOf (edges : List Bool) (area : ℕ) : Option ℚ :=
  if area = 0 then none
  else some (((edges.filter id).length : ℚ) / (area : ℚ))

/-- `np.sum(img_array < 50) / (h * w)` (line 61). -/
def darkRatioOf (px : List (Fin 256)) (area : ℕ) : Option ℚ :=
  if area = 0 then none
  else some (((px.filter fun p => decide ((p : ℕ) < 50)).length : ℚ) / (area : ℚ))

/-- `np.sum(img_array > 200) / (h * w)` (line 62). -/
def brightRatioOf (px : List (Fin 256)) (area : ℕ) : Option ℚ :=
  if area = 0 then none
  else some (((px.filter fun p => decide (200 < (p : ℕ))).length : ℚ) / (area : ℚ))

/-- `aspect_ratio = w / h if h > 0 else 1.0` (line 41): the only
zero-guard in the extractor. -/
def aspectRatioOf (h w : ℕ) : ℚ :=
  if 0 < h then (w : ℚ) / (h : ℚ) else 1

/-- The FeatureVector `_compute_features` builds (lines 69-82), with the
real-valued statistics kept exact. -/
structure ExtractedFeatures : Type where
  aspect_ratio : ℚ
  mean_intensity : ℚ
  std_intensity : ℝ
  median_intensity : ℚ
  entropy : ℝ
  laplacian_var : ℝ
  edge_density : ℚ
  dark_ratio : ℚ
  bright_ratio : ℚ
  contrast : ℚ
  width : ℕ
  height : ℕ

/-- `_compute_features` as a whole: `none` exactly when some division by
a zero pixel count / zero histogram sum or an empty-array percentile
occurs. -/
noncomputable def compute_features (h w : ℕ) (px : List (Fin 256))
    (edges : List Bool) (lap : ℝ) : Option ExtractedFeatures :=
  (npMean px).bind fun mean =>
  (npStd px).bind fun std =>
  (npMedian px).bind fun med =>
  (entropyOpt px).bind fun ent =>
  (edgeDensityOf edges (h * w)).bind fun ed =>
  (darkRatioOf px (h * w)).bind fun dr =>
  (brightRatioOf px (h * w)).bind fun br =>
  (npPercentile px 5).bind fun p5 =>
  (npPercentile px 95).bind fun p95 =>
  some { aspect_ratio := aspectRatioOf h w, mean_intensity := mean,
         std_intensity := std, median_intensity := med, entropy := ent,
         laplacian_var := lap, edge_density := ed, dark_ratio := dr,
         bright_ratio := br, contrast := p95 - p5, width := w, height := h }

/-- Counterexample to claim C6: on the zero-area image the extractor has
no defined result at all - `np.mean`, `np.median` and the percentiles
get an empty array, and the histogram normalization and the three ratio
computations divide by zero - so "no computation divides by zero or
raises" fails; the aspect-ratio default is the only guard present. -/
theorem C6_counterexample : compute_features 0 0 [] [] 0 = none := rfl

/-- Claim C6 (amended): on a zero-area image the only guard in the
extractor is the `aspect_ratio = 1.0` default; the histogram
normalization, `edge_density`, `dark_ratio` and `bright_ratio` divide by
the zero pixel count and the percentile calls fail on the empty array,
so the extractor is undefined there; on every positive-area image every
computation is defined. -/
theorem C6_zero_area :
    (∀ w : ℕ, aspectRatioOf 0 w = 1)
    ∧ (∀ (h' w' : ℕ) (px : List (Fin 256)) (edges : List Bool) (lap : ℝ),
        px.length = h' * w' → h' * w' = 0 →
        compute_features h' w' px edges lap = none)
    ∧ (∀ (h' w' : ℕ) (px : List (Fin 256)) (edges : List Bool) (lap : ℝ),
        0 < h' → 0 < w' → px.length = h' * w' →
        (compute_features h' w' px edges lap).isSome) := by
  refine ⟨fun w => by simp [aspectRatioOf], ?_, ?_⟩
  · intro h' w' px edges lap hlen harea
    rw [harea] at hlen
    have hpx : px = [] := List.eq_nil_of_length_eq_zero hlen
    subst hpx
    rfl
  · intro h' w' px edges lap hh hw hlen
    have harea : h' * w' ≠ 0 := (Nat.mul_pos hh hw).ne'
    have hnempty : px.isEmpty = false := by
      cases px with
      | nil =>
          exfalso
          rw [← hlen] at harea
          exact harea rfl
      | cons a l => rfl
    have hhs : histSum px ≠ 0 := by
      rw [histSum_eq_length, hlen]
      exact harea
    simp [compute_features, npMean, npStd, npVar, npMedian, npPercentile, entropyOpt,
      edgeDensityOf, darkRatioOf, brightRatioOf, hnempty, harea, hhs]

/-- Witness for C6: aspect default at h = 0, the undefined zero-area
extraction, and a defined 1-by-1 extraction. -/
theorem C6_zero_area_witness :
    aspectRatioOf 0 5 = 1
    ∧ compute_features 0 5 [] [] 0 = none
    ∧ (compute_features 1 1 [0] [false] 0).isSome := by
  have h := C6_zero_area
  exact ⟨h.1 5, h.2.1 0 5 [] [] 0 (by decide) (by decide),
    h.2.2 1 1 [0] [false] 0 (by decide) (by decide) (by decide)⟩

/-- Claim C8: a non-empty image of one constant intensity has entropy
exactly 0 - the normalized histogram has a single bin of probability 1
and zero-probability bins are excluded from the sum, producing no NaN or
log-of-zero - and every non-empty image has nonnegative entropy. -/
theorem C8_entropy_bound :
    (∀ (px : List (Fin 256)) (c : Fin 256), px ≠ [] → (∀ p ∈ px, p = c) →
        entropyOf px = 0)
    ∧ (∀ px : List (Fin 256), px ≠ [] → 0 ≤ entropyOf px) := by
  constructor
  · intro px c hne hconst
    have hlen : px.length ≠ 0 := fun h => hne (List.eq_nil_of_length_eq_zero h)
    have hcount : histo px c = px.length := by
      rw [histo, List.count_eq_length]
      intro b hb
      simp [hconst b hb]
    have hzero : ∀ i : Fin 256, i ≠ c → histo px i = 0 := by
      intro i hi
      rw [histo, List.count_eq_zero]
      intro hmem
      exact hi (hconst i hmem)
    have hnc : histNorm px c = 1 := by
      rw [histNorm, hcount, histSum_eq_length]
      rw [div_self]
      exact_mod_cast hlen
    have hni : ∀ i : Fin 256, i ≠ c → histNorm px i = 0 := by
      intro i hi
      rw [histNorm, hzero i hi]
      simp
    rw [entropyOf, Finset.sum_eq_single c]
    · rw [hnc]
      simp
    · intro i _ hi
      rw [hni i hi]
      norm_num
    · intro hc
      exact absurd (Finset.mem_univ c) hc
  · intro px hne
    have hlen : px.length ≠ 0 := fun h => hne (List.eq_nil_of_length_eq_zero h)
    have hpos : 0 < (histSum px : ℚ) := by
      rw [histSum_eq_length]
      exact_mod_cast Nat.pos_of_ne_zero hlen
    rw [entropyOf, neg_nonneg]
    apply Finset.sum_nonpos
    intro i _
    split_ifs with h
    · have hnn : (0:ℚ) ≤ histNorm px i := le_of_lt h
      have h1 : histNorm px i ≤ 1 := by
        rw [histNorm, div_le_one hpos]
        have : histo px i ≤ histSum px :=
          Finset.single_le_sum (f := fun j => histo px j)
            (fun j _ => Nat.zero_le _) (Finset.mem_univ i)
        exact_mod_cast this
      have h2 : Real.logb 2 (histNorm px i) ≤ 0 :=
        Real.logb_nonpos (by norm_num) (by exact_mod_cast hnn) (by exact_mod_cast h1)
      exact mul_nonpos_iff.2 (Or.inl ⟨by exact_mod_cast hnn, h2⟩)
    · exact le_refl 0

/-- Witness for C8: a constant three-pixel image has entropy 0, and a
two-valued image has nonnegative entropy. -/
theorem C8_entropy_bound_witness :
    entropyOf [(128 : Fin 256), 128, 128] = 0
    ∧ 0 ≤ entropyOf [(7 : Fin 256), 9] := by
  exact ⟨C8_entropy_bound.1 _ 128 (by simp) (by simp),
    C8_entropy_bound.2 _ (by simp)⟩
